import Mathlib

/-!
Shallow embedding of the GuideScaff scaffolding pipeline.

Part 1 embeds makeContigLinks.py: the distance/overlap primitives, the
sliding-window distance matrix builder, the consensus reducer, the greedy
path builder and the scaffold-line assembler.

Part 2 (namespace SequenceMerger) embeds makeScaffolds.py: the
reverse-complement table and the per-cluster sequence merging loop.

Python dictionaries are embedded as association lists (first-match lookup,
in-place update of the first matching key, append otherwise), Python sets
of strings as lists of strings with membership semantics, and fallible
operations (dict lookup raising KeyError, indexing past the end raising
IndexError) as Option-valued functions.  Python integers are Int, list
lengths and window sizes are Nat.  While-loops whose iteration count is
bounded by the input size are embedded with an explicit fuel argument set
to a bound that the source loop can never exceed; the bound is justified
in a comment at each use.
-/

/-- TilingEntry from makeContigLinks.py.  The namedtuple holds the
whitespace-split string fields of one show-tiling placement record; the
START and END fields here hold the integer values that buildMatrix
obtains via int(), the unused GAP, LENGTH, COV and AVGID fields are kept
as raw strings. -/
structure TilingEntry where
  START : Int
  END : Int
  GAP : String
  LENGTH : String
  COV : String
  AVGID : String
  ORIENTATION : String
  CONTIGID : String
deriving DecidableEq, Repr

/-- ContigEntry namedtuple (ORIENTATION, CONTIGID, END) from
makeContigLinks.py. -/
structure ContigEntry where
  ORIENTATION : String
  CONTIGID : String
  END : String
deriving DecidableEq, Repr

/-- ScaffoldLine namedtuple (GAP, ORIENTATION, CONTIG) from
makeContigLinks.py. -/
structure ScaffoldLine where
  GAP : Int
  ORIENTATION : String
  CONTIG : String
deriving DecidableEq, Repr

/-- Python dict lookup on an association list: first matching key wins
(a Python dict never holds a duplicate key). -/
def alookup {α β : Type} [DecidableEq α] (k : α) : List (α × β) → Option β
  | [] => none
  | p :: rest => if p.1 = k then some p.2 else alookup k rest

/-- oppositeContigEntry from makeContigLinks.py: same orientation and
contig id, opposite end tag (LFT to RGT, RGT to LFT, anything else to
ALL). -/
def oppositeContigEntry (ce : ContigEntry) : ContigEntry :=
  if ce.END = "LFT" then ⟨ce.ORIENTATION, ce.CONTIGID, "RGT"⟩
  else if ce.END = "RGT" then ⟨ce.ORIENTATION, ce.CONTIGID, "LFT"⟩
  else ⟨ce.ORIENTATION, ce.CONTIGID, "ALL"⟩

/-- oppositeOrientation from makeContigLinks.py: flip the orientation
symbol, keep contig id and end tag unchanged. -/
def oppositeOrientation (ce : ContigEntry) : ContigEntry :=
  if ce.ORIENTATION = "+" then ⟨"-", ce.CONTIGID, ce.END⟩
  else ⟨"+", ce.CONTIGID, ce.END⟩

/-- overlap(a,b,c,d) from makeContigLinks.py: r is 0 for identical
ranges, otherwise min(b,d)-max(a,c); the function returns r when r is
non-negative and falls through (Python None, here none) otherwise. -/
def overlap (a b c d : Int) : Option Int :=
  let r : Int := if a = c ∧ b = d then 0 else min b d - max a c
  if r ≥ 0 then some r else none

/-- The gap expression from the final return of distance(a,b,c,d):
min(abs(max(a,b)-min(c,d)), abs(max(c,d)-min(a,b))). -/
def gapDistance (a b c d : Int) : Int :=
  min |max a b - min c d| |max c d - min a b|

/-- distance(a,b,c,d) from makeContigLinks.py.  Python tests the overlap
with a truthiness check (if o:), so both a missing overlap (None) and a
zero overlap fall through to the gap expression. -/
def distance (a b c d : Int) : Int :=
  match overlap a b c d with
  | some o => if o = 0 then gapDistance a b c d else -o
  | none => gapDistance a b c d

/-- A multi-valued distance matrix: M[ce1][ce2] is a list of observed
distances (two-level Python dict). -/
abbrev DistMatrix : Type := List (ContigEntry × List (ContigEntry × List Int))

/-- A consensus matrix: MC[ce1][ce2] is a single integer distance. -/
abbrev ConsMatrix : Type := List (ContigEntry × List (ContigEntry × Int))

/-- Two-level dict lookup M[a][b], None when either key is absent. -/
def lookup2 {β : Type} (M : List (ContigEntry × List (ContigEntry × β)))
    (a b : ContigEntry) : Option β :=
  match alookup a M with
  | none => none
  | some row => alookup b row

/-- M[ce1].setdefault(ce2, []).append(d) on one row: append d to the
list at the first occurrence of key k, or add a fresh entry at the end
(dict insertion order). -/
def rowInsert (k : ContigEntry) (d : Int) :
    List (ContigEntry × List Int) → List (ContigEntry × List Int)
  | [] => [(k, [d])]
  | p :: rest =>
      if p.1 = k then (p.1, p.2 ++ [d]) :: rest else p :: rowInsert k d rest

/-- M.setdefault(k1, {}); M[k1].setdefault(k2, []); M[k1][k2].append(d). -/
def matInsert (k1 k2 : ContigEntry) (d : Int) : DistMatrix → DistMatrix
  | [] => [(k1, rowInsert k2 d [])]
  | p :: rest =>
      if p.1 = k1 then (p.1, rowInsert k2 d p.2) :: rest
      else p :: matInsert k1 k2 d rest

/-- The window pair list of one chromosome cluster for window size w:
Python iterates i over xrange(len(chromosome)-w) (empty when the
subtraction is not positive, matching truncated Nat subtraction) and
pairs chromosome[i] with islice(chromosome, i+1, i+w), i.e. with the
next w-1 records. -/
def windowPairs (chromosome : List TilingEntry) (w : Nat) :
    List (TilingEntry × TilingEntry) :=
  (List.range (chromosome.length - w)).flatMap (fun i =>
    match chromosome.get? i with
    | some e1 => ((chromosome.drop (i + 1)).take (w - 1)).map (fun e2 => (e1, e2))
    | none => [])

/-- The body of the innermost loop of buildMatrix from
makeContigLinks.py: strip the three-letter end tag and the separator
from each contig id, build the two ContigEntry keys, compute the
distance, and append it both at (ce1, ce2) and at the
orientation-flipped mirror (ce2opp, ce1opp). -/
def buildStep (M : DistMatrix) (p : TilingEntry × TilingEntry) : DistMatrix :=
  let e1 := p.1
  let e2 := p.2
  let c1 := e1.CONTIGID.drop 4
  let c2 := e2.CONTIGID.drop 4
  let paired1 := e1.CONTIGID.take 3
  let paired2 := e2.CONTIGID.take 3
  let ce1 : ContigEntry := ⟨e1.ORIENTATION, c1, paired1⟩
  let ce2 : ContigEntry := ⟨e2.ORIENTATION, c2, paired2⟩
  let ce1opp := oppositeOrientation ce1
  let ce2opp := oppositeOrientation ce2
  let dist := distance e1.START e1.END e2.START e2.END
  matInsert ce2opp ce1opp dist (matInsert ce1 ce2 dist M)

/-- buildMatrix from makeContigLinks.py: accumulate buildStep over every
window pair of every chromosome of every guiding tiling file, starting
from the empty dict. -/
def buildMatrix (tilingsList : List (List (List TilingEntry))) (w : Nat) :
    DistMatrix :=
  tilingsList.foldl (fun M tilings =>
    tilings.foldl (fun M chromosome =>
      (windowPairs chromosome w).foldl buildStep M) M) []

/-- MC[k1][k2] = v on one row: overwrite the value at the first
occurrence of key k, or add a fresh entry at the end. -/
def rowSet (k : ContigEntry) (v : Int) :
    List (ContigEntry × Int) → List (ContigEntry × Int)
  | [] => [(k, v)]
  | p :: rest => if p.1 = k then (p.1, v) :: rest else p :: rowSet k v rest

/-- MC.setdefault(k1, {}); MC[k1][k2] = v. -/
def matSet (k1 k2 : ContigEntry) (v : Int) : ConsMatrix → ConsMatrix
  | [] => [(k1, [(k2, v)])]
  | p :: rest =>
      if p.1 = k1 then (p.1, rowSet k2 v p.2) :: rest
      else p :: matSet k1 k2 v rest

/-- makeConsensusMatrix from makeContigLinks.py: for every edge of the
multi-valued matrix, skip it when its observation list is shorter than
threshold, otherwise store distancesFunc applied to the list.  The
Python int() truncation of the statistic is folded into distancesFunc,
which here is already Int-valued. -/
def makeConsensusMatrix (M : DistMatrix) (threshold : Nat)
    (distancesFunc : List Int → Int) : ConsMatrix :=
  M.foldl (fun MC p =>
    p.2.foldl (fun MC q =>
      if q.2.length < threshold then MC
      else matSet p.1 q.1 (distancesFunc q.2) MC) MC) []

/-- The candidate selection of bestNextMatch on one row: keep the
entries whose contig id is not in the dropList, stable-sort them by
distance (Python sorted(candidates, key=itemgetter(1))) and return the
first one, or None when no candidate remains. -/
def bestOfRow (dropList : List String) (row : List (ContigEntry × Int)) :
    Option ContigEntry :=
  match List.mergeSort (row.filter (fun q => decide (q.1.CONTIGID ∉ dropList)))
      (fun q1 q2 => decide (q1.2 ≤ q2.2)) with
  | [] => none
  | q :: _ => some q.1

/-- bestNextMatch from makeContigLinks.py: look up row M[n] and pick
the closest candidate via bestOfRow.  The callers only invoke it after
a has_key check, so the none branch of the lookup is unreachable
there. -/
def bestNextMatch (M : ConsMatrix) (dropList : List String)
    (n : ContigEntry) : Option ContigEntry :=
  match alookup n M with
  | none => none
  | some row => bestOfRow dropList row

/-- The while-loop of expandPath from makeContigLinks.py, returning the
extension appended after the initial node together with the final
dropList.  Each iteration forms the opposite end of the latest node,
breaks unless it is a key of M (the further Python test
"oppositeEnd in dropList" compares a ContigEntry tuple against a set of
strings, so it never holds and is dropped here), appends it, adds its
contig id to the dropList, and then appends the bestNextMatch, breaking
when there is none.  The loop is fuel-bounded: every iteration that
recurses appends a bestNextMatch node whose contig id is outside the
current dropList and is then added to it, so the iteration count never
exceeds the number of entries stored in M, and the fuel passed by
expandPath below is always sufficient. -/
def expandLoop (M : ConsMatrix) : Nat → ContigEntry → List String →
    List ContigEntry × List String
  | 0, _, dropList => ([], dropList)
  | fuel + 1, last, dropList =>
    let oppositeEnd := oppositeContigEntry last
    if (alookup oppositeEnd M).isNone then ([], dropList)
    else
      let drop1 := oppositeEnd.CONTIGID :: dropList
      match bestNextMatch M drop1 oppositeEnd with
      | none => ([oppositeEnd], drop1)
      | some n =>
        let r := expandLoop M fuel n drop1
        (oppositeEnd :: n :: r.1, r.2)

/-- Fuel bound for expandLoop: one unit per entry of M plus slack. -/
def expandFuel (M : ConsMatrix) : Nat :=
  M.length + (M.map (fun p => p.2.length)).sum + 1

/-- expandPath from makeContigLinks.py: the path starts as [initial] and
grows by the loop above; the mutated dropList (Python mutates the
caller's seenContigs set in place) is returned alongside. -/
def expandPath (M : ConsMatrix) (dropList : List String)
    (initial : ContigEntry) : List ContigEntry × List String :=
  let r := expandLoop M (expandFuel M) initial dropList
  (initial :: r.1, r.2)

/-- The while-loop of buildPaths from makeContigLinks.py.  Python pops an
arbitrary element of the unseen set; the embedding determinizes the pop
as taking the head of the list.  A popped node whose contig id was
already seen is skipped; otherwise its id is marked seen, a path is
grown, and paths with at least two entries are kept, after which every
contig id of the path is marked seen and the path entries are discarded
from the unseen list.  Each iteration consumes at least the popped head,
so fuel equal to the initial length of the unseen list is always
sufficient. -/
def buildPathsLoop (M : ConsMatrix) : Nat → List ContigEntry → List String →
    List (List ContigEntry)
  | 0, _, _ => []
  | _, [], _ => []
  | fuel + 1, startNode :: unseenRest, seenContigs =>
    if startNode.CONTIGID ∈ seenContigs then
      buildPathsLoop M fuel unseenRest seenContigs
    else
      let seen1 := startNode.CONTIGID :: seenContigs
      let pr := expandPath M seen1 startNode
      if pr.1.length > 1 then
        let seen2 := pr.1.foldl (fun s e => e.CONTIGID :: s) pr.2
        let unseen2 := unseenRest.filter (fun e => decide (e ∉ pr.1))
        pr.1 :: buildPathsLoop M fuel unseen2 seen2
      else
        buildPathsLoop M fuel unseenRest pr.2

/-- buildPaths from makeContigLinks.py: start from the key set of M
(as a list, in dict order) and empty seen set. -/
def buildPaths (M : ConsMatrix) : List (List ContigEntry) :=
  buildPathsLoop M (M.map Prod.fst).length (M.map Prod.fst) []

/-- pairwise(it) from makeContigLinks.py as a list of adjacent pairs. -/
def pairwiseList {α : Type} : List α → List (α × α)
  | [] => []
  | [_] => []
  | a :: b :: rest => (a, b) :: pairwiseList (b :: rest)

/-- The pairwise walk of makeScaffolds from makeContigLinks.py: skip a
pair sharing one contig id, otherwise emit a line whose gap is M[ce1][ce2]
(Python raises KeyError when that edge is absent, embedded as none),
orientation and contig taken from the first endpoint. -/
def scaffoldBody (M : ConsMatrix) :
    List (ContigEntry × ContigEntry) → Option (List ScaffoldLine)
  | [] => some []
  | pr :: rest =>
    if pr.1.CONTIGID = pr.2.CONTIGID then scaffoldBody M rest
    else
      match lookup2 M pr.1 pr.2 with
      | none => none
      | some gap =>
        match scaffoldBody M rest with
        | none => none
        | some lines => some (⟨gap, pr.1.ORIENTATION, pr.1.CONTIGID⟩ :: lines)

/-- One iteration of the outer loop of makeScaffolds from
makeContigLinks.py: the pairwise lines followed by the final zero-gap
line for path[-1] (IndexError on an empty path, embedded as none). -/
def scaffoldForPath (M : ConsMatrix) (path : List ContigEntry) :
    Option (List ScaffoldLine) :=
  match path.getLast? with
  | none => none
  | some ceLast =>
    match scaffoldBody M (pairwiseList path) with
    | none => none
    | some lines => some (lines ++ [⟨0, ceLast.ORIENTATION, ceLast.CONTIGID⟩])

/-- makeScaffolds from makeContigLinks.py over all paths. -/
def makeScaffolds (M : ConsMatrix) (paths : List (List ContigEntry)) :
    Option (List (List ScaffoldLine)) :=
  paths.mapM (scaffoldForPath M)

namespace SequenceMerger

/-- ContigLinksEntry namedtuple (GAP, ORIENTATION, CONTIGID) from
makeScaffolds.py; the GAP field holds the integer value that
makeScaffolds obtains via int(). -/
structure ContigLinksEntry where
  GAP : Int
  ORIENTATION : String
  CONTIGID : String
deriving DecidableEq, Repr

/-- The complement table of reverseComplement from makeScaffolds.py, in
source order. -/
def transTable : List (Char × Char) :=
  [('A', 'T'), ('C', 'G'), ('G', 'C'), ('T', 'A'),
   ('M', 'K'), ('R', 'Y'), ('W', 'W'), ('S', 'S'),
   ('Y', 'R'), ('K', 'M'), ('V', 'B'), ('H', 'D'),
   ('D', 'H'), ('B', 'V'), ('X', 'X'), ('N', 'N')]

/-- Lookup in the complement table; Python raises KeyError on a symbol
outside the table, embedded as none. -/
def trans (c : Char) : Option Char := alookup c transTable

/-- reverseComplement from makeScaffolds.py on a character list:
reverse the sequence, then map each symbol through the table. -/
def reverseComplementL (s : List Char) : Option (List Char) :=
  s.reverse.mapM trans

/-- reverseComplement on a String. -/
def reverseComplement (s : String) : Option String :=
  (reverseComplementL s.toList).map List.asString

/-- merge(s1, s2, o) from makeScaffolds.py: s1 + s2[o:]. -/
def merge (s1 s2 : List Char) (o : Nat) : List Char := s1 ++ s2.drop o

/-- The countdown loop of nOverlap from makeScaffolds.py: try the
current candidate length x (s1[-x:] == s2[:x]) and decrement on
mismatch, ending at 0. -/
def nOverlapAux (s1 s2 : List Char) : Nat → Nat
  | 0 => 0
  | x + 1 =>
    if s1.drop (s1.length - (x + 1)) = s2.take (x + 1) then x + 1
    else nOverlapAux s1 s2 x

/-- nOverlap(s1, s2) from makeScaffolds.py: the largest x up to
min(len(s1), len(s2)) with s1[-x:] == s2[:x], else 0. -/
def nOverlap (s1 s2 : List Char) : Nat :=
  nOverlapAux s1 s2 (min s1.length s2.length)

/-- The orientation step repeated twice inside makeScaffolds of
makeScaffolds.py: look the contig sequence up (KeyError as none) and
reverse-complement it when the line orientation is "-". -/
def orientSeq (contigs : List (String × List Char)) (e : ContigLinksEntry) :
    Option (List Char) :=
  match alookup e.CONTIGID contigs with
  | none => none
  | some s => if e.ORIENTATION = "-" then reverseComplementL s else some s

/-- The while-loop of makeScaffolds from makeScaffolds.py over one
cluster, returning the list of appended pieces.  A non-negative gap
appends the oriented sequence and gap N characters and advances by one
line; a negative gap looks at the next line (IndexError on a missing
next line, embedded as none), computes the actual overlap, and either
merges both sequences (advancing by two lines) or, at overlap zero,
appends the second oriented sequence and advances by one line. -/
def mergeCluster (contigs : List (String × List Char)) :
    List ContigLinksEntry → Option (List (List Char))
  | [] => some []
  | c1 :: rest =>
    match orientSeq contigs c1 with
    | none => none
    | some seq1 =>
      if c1.GAP ≥ 0 then
        match mergeCluster contigs rest with
        | none => none
        | some pieces =>
            some (seq1 :: List.replicate c1.GAP.toNat 'N' :: pieces)
      else
        match rest with
        | [] => none
        | c2 :: rest2 =>
          match orientSeq contigs c2 with
          | none => none
          | some seq2 =>
            let ov := nOverlap seq1 seq2
            if ov > 0 then
              match mergeCluster contigs rest2 with
              | none => none
              | some pieces => some (merge seq1 seq2 ov :: pieces)
            else
              match mergeCluster contigs (c2 :: rest2) with
              | none => none
              | some pieces => some (seq2 :: pieces)

/-- makeScaffolds from makeScaffolds.py: join the pieces of every
cluster of the contig-links dictionary. -/
def makeScaffolds (d : List (String × List ContigLinksEntry))
    (contigs : List (String × List Char)) :
    Option (List (String × List Char)) :=
  d.mapM (fun p =>
    (mergeCluster contigs p.2).map (fun pieces => (p.1, pieces.flatten)))

/-- The alphabet of reverseComplement: the keys of the complement
table. -/
def alphabet : List Char := transTable.map Prod.fst

end SequenceMerger

/-- A ContigEntry whose orientation symbol is one of the two values
produced by show-tiling, which the run relies on. -/
abbrev oriOKCE (ce : ContigEntry) : Prop :=
  ce.ORIENTATION = "+" ∨ ce.ORIENTATION = "-"

/-- All placement records of a tilings list carry a well-formed
orientation symbol. -/
abbrev OriOK (tilingsList : List (List (List TilingEntry))) : Prop :=
  ∀ tilings ∈ tilingsList, ∀ chromosome ∈ tilings, ∀ e ∈ chromosome,
    e.ORIENTATION = "+" ∨ e.ORIENTATION = "-"

/-- A two-level association list with no duplicate keys at either
level: the shape every value of a Python dict of dicts has. -/
abbrev MatrixWF (M : DistMatrix) : Prop :=
  (M.map Prod.fst).Nodup ∧ ∀ p ∈ M, (p.2.map Prod.fst).Nodup

/-- Distance-matrix lookups agree with their orientation-flipped
mirrors on well-oriented keys. -/
def SymWF (M : DistMatrix) : Prop :=
  ∀ a b : ContigEntry, oriOKCE a → oriOKCE b →
    lookup2 M a b = lookup2 M (oppositeOrientation b) (oppositeOrientation a)

/-- Concrete placement records used by the test instances below. -/
def recANY (s e : Int) (ori id : String) : TilingEntry :=
  ⟨s, e, "", "", "", "", ori, id⟩

/-- The two-record cluster of the end-to-end scenario: C1 at 0..100
and C2 at 150..250, both forward. -/
def scenarioCluster : List TilingEntry :=
  [recANY 0 100 "+" "ALL_C1", recANY 150 250 "+" "ALL_C2"]

/-- Two guiding tilings, each a single chromosome holding the
scenario cluster. -/
def scenarioTilings : List (List (List TilingEntry)) :=
  [[scenarioCluster], [scenarioCluster]]

/-- A three-record cluster: with window size 2 the source loop pairs
only index 0 with index 1 and never reaches the pair (1, 2). -/
def threeCluster : List TilingEntry :=
  [recANY 0 100 "+" "LFT_A", recANY 150 250 "+" "RGT_B",
   recANY 300 400 "+" "LFT_C"]

theorem overlap_symm (a b c d : Int) : overlap a b c d = overlap c d a b := by
  unfold overlap
  by_cases h : a = c ∧ b = d
  · obtain ⟨h1, h2⟩ := h
    subst h1; subst h2
    simp
  · have h2 : ¬ (c = a ∧ d = b) := fun hh => h ⟨hh.1.symm, hh.2.symm⟩
    simp only [if_neg h, if_neg h2, min_comm b d, max_comm a c]

theorem gapDistance_symm (a b c d : Int) : gapDistance a b c d = gapDistance c d a b := by
  unfold gapDistance
  rw [min_comm]

/-- C7: distance(a,b,c,d) equals distance(c,d,a,b) for all integer
range pairs; the distance primitive is symmetric under swapping the two
ranges. -/
theorem distance_symm (a b c d : Int) : distance a b c d = distance c d a b := by
  unfold distance
  rw [overlap_symm, gapDistance_symm]

/-- C4 counterexample: on identical ranges [0,10] and [0,10], overlap
returns the non-negative value 0, yet distance returns 10, not -0 = 0. -/
theorem distance_overlap_zero_counterexample :
    overlap 0 10 0 10 = some 0 ∧ distance 0 10 0 10 = 10 ∧ (10 : Int) ≠ -0 := by
  refine ⟨by decide, by decide, by decide⟩

/-- C4 amended: whenever overlap(a,b,c,d) returns a positive value v,
distance(a,b,c,d) equals -v; a zero overlap is falsy in Python, so
distance then falls through to the gap expression instead. -/
theorem distance_neg_of_overlap_pos (a b c d v : Int)
    (hov : overlap a b c d = some v) (hpos : 0 < v) :
    distance a b c d = -v := by
  unfold distance
  rw [hov]
  have hne : ¬ v = 0 := by omega
  simp [hne]

/-- C4 witness: overlap(0,10,8,20) = 2 > 0 and distance(0,10,8,20) = -2. -/
theorem distance_neg_of_overlap_pos_witness :
    overlap 0 10 8 20 = some 2 ∧ (0 : Int) < 2 ∧ distance 0 10 8 20 = -2 :=
  ⟨by decide, by decide, distance_neg_of_overlap_pos 0 10 8 20 2 (by decide) (by decide)⟩

/-- C3 divergence evidence: the source loop runs i over
xrange(len(chromosome) - w), so a two-record cluster with window size 2
yields no pair at all (the claim requires the pair (0, 1)), and in a
three-record cluster the records at the tail are never used as the
first element of a pair: (0,1) is recorded, (1,2) is not. -/
theorem buildMatrix_tail_records_skipped :
    buildMatrix [[scenarioCluster]] 2 = [] ∧
    lookup2 (buildMatrix [[threeCluster]] 2)
      ⟨"+", "A", "LFT"⟩ ⟨"+", "B", "RGT"⟩ = some [50] ∧
    lookup2 (buildMatrix [[threeCluster]] 2)
      ⟨"+", "B", "RGT"⟩ ⟨"+", "C", "LFT"⟩ = none := by
  refine ⟨rfl, rfl, rfl⟩

/-- C5 divergence evidence: on the end-to-end scenario (two guiding
tilings, each placing C1 at 0..100 directly before C2 at 150..250,
window size 2, threshold 1) the pipeline produces an empty distance
matrix, an empty consensus matrix for every statistic, no paths and no
scaffold lines, instead of the claimed edge with distance 50 and the
two claimed lines. -/
theorem scenario_pipeline_empty (dfun : List Int → Int) :
    buildMatrix scenarioTilings 2 = [] ∧
    makeConsensusMatrix (buildMatrix scenarioTilings 2) 1 dfun = [] ∧
    buildPaths (makeConsensusMatrix (buildMatrix scenarioTilings 2) 1 dfun) = [] ∧
    makeScaffolds (makeConsensusMatrix (buildMatrix scenarioTilings 2) 1 dfun)
      (buildPaths (makeConsensusMatrix (buildMatrix scenarioTilings 2) 1 dfun))
      = some [] := by
  refine ⟨rfl, rfl, rfl, rfl⟩

/-- C1 divergence evidence: on the cluster [(-1, +, c1), (0, +, c2)]
with sequences c1 = AAA and c2 = CCC (no actual overlap), the merger
emits CCCCCC: the branch for a negative gap with zero overlap appends
the second oriented sequence instead of the first, so the first
sequence is dropped, the second is duplicated, and the claimed plain
concatenation AAACCC appears nowhere (the output holds no A at all). -/
theorem merge_zero_overlap_drops_first :
    SequenceMerger.makeScaffolds
      [("s", [⟨-1, "+", "c1"⟩, ⟨0, "+", "c2"⟩])]
      [("c1", ['A', 'A', 'A']), ("c2", ['C', 'C', 'C'])]
      = some [("s", ['C', 'C', 'C', 'C', 'C', 'C'])] ∧
    'A' ∉ ['C', 'C', 'C', 'C', 'C', 'C'] := by
  refine ⟨rfl, by decide⟩

/-- C2 counterexample: buildMatrix records the edge
(+, A, LFT) to (+, B, RGT) with distance 50, and its mirror is inserted
at the orientation-flipped keys with unchanged end tags,
(-, B, RGT) to (-, A, LFT); the orientation-AND-end-flipped mirror
(-, B, LFT) to (-, A, RGT) claimed by the spec is absent. -/
theorem buildMatrix_end_flip_counterexample :
    lookup2 (buildMatrix [[threeCluster]] 2)
      ⟨"+", "A", "LFT"⟩ ⟨"+", "B", "RGT"⟩ = some [50] ∧
    lookup2 (buildMatrix [[threeCluster]] 2)
      ⟨"-", "B", "RGT"⟩ ⟨"-", "A", "LFT"⟩ = some [50] ∧
    lookup2 (buildMatrix [[threeCluster]] 2)
      ⟨"-", "B", "LFT"⟩ ⟨"-", "A", "RGT"⟩ = none := by
  refine ⟨rfl, rfl, rfl⟩

theorem alookup_rowInsert (k b : ContigEntry) (d : Int)
    (row : List (ContigEntry × List Int)) :
    alookup b (rowInsert k d row) =
      if b = k then some ((alookup k row).getD [] ++ [d]) else alookup b row := by
  induction row with
  | nil =>
    by_cases h : b = k
    · subst h; simp [rowInsert, alookup]
    · have h2 : ¬ (k = b) := fun hh => h hh.symm
      simp [rowInsert, alookup, h, h2]
  | cons p rest ih =>
    by_cases hpk : p.1 = k
    · by_cases hbk : b = k
      · subst hbk
        simp [rowInsert, alookup, hpk]
      · have hpb : ¬ (p.1 = b) := fun hh => hbk (hh.symm.trans hpk)
        have hkb : ¬ (k = b) := fun hh => hbk hh.symm
        simp [rowInsert, alookup, hpk, hpb, hbk, hkb]
    · by_cases hp : p.1 = b
      · have hbk : ¬ (b = k) := fun hh => hpk (hp.trans hh)
        simp [rowInsert, alookup, hpk, hp, hbk]
      · simp [rowInsert, alookup, hpk, hp, ih]

theorem lookup2_matInsert (k1 k2 : ContigEntry) (d : Int) (M : DistMatrix)
    (a b : ContigEntry) :
    lookup2 (matInsert k1 k2 d M) a b =
      if a = k1 ∧ b = k2 then some ((lookup2 M k1 k2).getD [] ++ [d])
      else lookup2 M a b := by
  induction M with
  | nil =>
    by_cases ha : a = k1
    · subst ha
      by_cases hb : b = k2
      · subst hb; simp [matInsert, lookup2, alookup, rowInsert]
      · have h2 : ¬ (k2 = b) := fun hh => hb hh.symm
        simp [matInsert, lookup2, alookup, rowInsert, hb, h2]
    · have h1 : ¬ (k1 = a) := fun hh => ha hh.symm
      simp [matInsert, lookup2, alookup, h1, ha]
  | cons p rest ih =>
    by_cases hpk : p.1 = k1
    · by_cases ha : a = k1
      · subst ha
        simp [matInsert, lookup2, alookup, hpk, alookup_rowInsert]
      · have hpa : ¬ (p.1 = a) := fun hh => ha (hh.symm.trans hpk)
        have hka : ¬ (k1 = a) := fun hh => ha hh.symm
        simp [matInsert, lookup2, alookup, hpk, hpa, ha, hka]
    · by_cases hpa : p.1 = a
      · have ha : ¬ (a = k1) := fun hh => hpk (hpa.trans hh)
        simp [matInsert, lookup2, alookup, hpk, hpa, ha]
      · have ih2 := ih
        simp only [lookup2] at ih2
        simp [matInsert, lookup2, alookup, hpk, hpa, ih2]

theorem foldl_preserve_mem {α β : Type} {P : β → Prop} (f : β → α → β) :
    ∀ (l : List α) (b : β), (∀ x ∈ l, ∀ acc, P acc → P (f acc x)) → P b →
      P (l.foldl f b)
  | [], _, _, hb => hb
  | x :: l, b, h, hb =>
    foldl_preserve_mem f l (f b x)
      (fun y hy acc hacc => h y (List.mem_cons_of_mem x hy) acc hacc)
      (h x (List.mem_cons_self x l) b hb)

theorem oppOri_ok (ce : ContigEntry) : oriOKCE (oppositeOrientation ce) := by
  unfold oppositeOrientation oriOKCE
  split_ifs with h
  · right; rfl
  · left; rfl

theorem oppOri_invol (ce : ContigEntry) (h : oriOKCE ce) :
    oppositeOrientation (oppositeOrientation ce) = ce := by
  obtain ⟨o, i, e⟩ := ce
  have hne : ("-" : String) ≠ "+" := by decide
  rcases h with h | h <;>
    simp only [oriOKCE] at h <;> subst h <;>
    simp [oppositeOrientation, hne]

theorem oppOri_inj (x y : ContigEntry) (hx : oriOKCE x) (hy : oriOKCE y)
    (h : oppositeOrientation x = oppositeOrientation y) : x = y := by
  have h2 := congrArg oppositeOrientation h
  rwa [oppOri_invol x hx, oppOri_invol y hy] at h2

theorem symwf_double_insert (M : DistMatrix) (x y : ContigEntry) (d : Int)
    (hx : oriOKCE x) (hy : oriOKCE y) (hM : SymWF M) :
    SymWF (matInsert (oppositeOrientation y) (oppositeOrientation x) d
      (matInsert x y d M)) := by
  intro a b ha hb
  have hmirror := hM a b ha hb
  have hxy := hM x y hx hy
  simp only [lookup2_matInsert]
  have e1 : (oppositeOrientation b = oppositeOrientation y ∧
      oppositeOrientation a = oppositeOrientation x) ↔ (a = x ∧ b = y) := by
    constructor
    · rintro ⟨i1, i2⟩
      exact ⟨oppOri_inj a x ha hx i2, oppOri_inj b y hb hy i1⟩
    · rintro ⟨i1, i2⟩
      subst i1; subst i2; exact ⟨rfl, rfl⟩
  have e2 : (oppositeOrientation b = x ∧ oppositeOrientation a = y) ↔
      (a = oppositeOrientation y ∧ b = oppositeOrientation x) := by
    constructor
    · rintro ⟨i1, i2⟩
      constructor
      · have i3 := congrArg oppositeOrientation i2
        rwa [oppOri_invol a ha] at i3
      · have i3 := congrArg oppositeOrientation i1
        rwa [oppOri_invol b hb] at i3
    · rintro ⟨i1, i2⟩
      subst i1; subst i2
      exact ⟨oppOri_invol x hx, oppOri_invol y hy⟩
  by_cases hB : a = x ∧ b = y <;> by_cases hA : a = oppositeOrientation y ∧ b = oppositeOrientation x
  · rw [if_pos hA, if_pos (e1.mpr hB)]
  · have hxy2 : ¬ (oppositeOrientation y = x ∧ oppositeOrientation x = y) := by
      rintro ⟨i1, i2⟩
      exact hA ⟨hB.1.trans i1.symm, hB.2.trans i2.symm⟩
    rw [if_neg hA, if_pos hB, if_pos (e1.mpr hB), if_neg hxy2, hxy]
  · have hxy2 : ¬ (oppositeOrientation y = x ∧ oppositeOrientation x = y) := by
      rintro ⟨i1, i2⟩
      exact hB ⟨hA.1.trans i1, hA.2.trans i2⟩
    rw [if_pos hA, if_neg (fun hh => hB (e1.mp hh)), if_pos (e2.mpr hA), if_neg hxy2, hxy]
  · rw [if_neg hA, if_neg hB, if_neg (fun hh => hB (e1.mp hh)),
      if_neg (fun hh => hA (e2.mp hh))]
    exact hmirror

theorem buildStep_symwf (M : DistMatrix) (pq : TilingEntry × TilingEntry)
    (h1 : pq.1.ORIENTATION = "+" ∨ pq.1.ORIENTATION = "-")
    (h2 : pq.2.ORIENTATION = "+" ∨ pq.2.ORIENTATION = "-")
    (hM : SymWF M) : SymWF (buildStep M pq) := by
  have hx : oriOKCE ⟨pq.1.ORIENTATION, pq.1.CONTIGID.drop 4, pq.1.CONTIGID.take 3⟩ := h1
  have hy : oriOKCE ⟨pq.2.ORIENTATION, pq.2.CONTIGID.drop 4, pq.2.CONTIGID.take 3⟩ := h2
  have hres := symwf_double_insert M _ _
    (distance pq.1.START pq.1.END pq.2.START pq.2.END) hx hy hM
  exact hres

theorem windowPairs_mem (chrom : List TilingEntry) (w : Nat)
    (pr : TilingEntry × TilingEntry) (h : pr ∈ windowPairs chrom w) :
    pr.1 ∈ chrom ∧ pr.2 ∈ chrom := by
  unfold windowPairs at h
  simp only [List.mem_flatMap] at h
  obtain ⟨i, _, hpr⟩ := h
  cases hget : chrom.get? i with
  | none => rw [hget] at hpr; simp at hpr
  | some e1 =>
    rw [hget] at hpr
    simp only [List.mem_map] at hpr
    obtain ⟨e2, he2, heq⟩ := hpr
    subst heq
    refine ⟨List.get?_mem hget, ?_⟩
    exact List.mem_of_mem_drop (List.mem_of_mem_take he2)

theorem buildMatrix_symwf (tl : List (List (List TilingEntry))) (w : Nat)
    (hok : OriOK tl) : SymWF (buildMatrix tl w) := by
  unfold buildMatrix
  have hbase : SymWF ([] : DistMatrix) := by
    intro a b _ _; rfl
  refine foldl_preserve_mem _ tl [] ?_ hbase
  intro tilings htmem Macc hMacc
  refine foldl_preserve_mem _ tilings Macc ?_ hMacc
  intro chrom hcmem M2 hM2
  refine foldl_preserve_mem _ (windowPairs chrom w) M2 ?_ hM2
  intro pr hpr M3 hM3
  have hmem := windowPairs_mem chrom w pr hpr
  exact buildStep_symwf M3 pr
    (hok tilings htmem chrom hcmem pr.1 hmem.1)
    (hok tilings htmem chrom hcmem pr.2 hmem.2) hM3

/-- C2 amended: on tilings whose orientation column is a well-formed
symbol (+ or -), every recorded observation list of buildMatrix equals
the observation list at the orientation-flipped (end tags unchanged)
counterparts of the two keys in swapped order: each inserted edge comes
with an orientation-flipped mirror edge carrying the identical
distance. -/
theorem buildMatrix_mirror (tl : List (List (List TilingEntry))) (w : Nat)
    (a b : ContigEntry) (hok : OriOK tl) (ha : oriOKCE a) (hb : oriOKCE b) :
    lookup2 (buildMatrix tl w) a b =
      lookup2 (buildMatrix tl w) (oppositeOrientation b) (oppositeOrientation a) :=
  buildMatrix_symwf tl w hok a b ha hb

/-- C2 amended witness: on the concrete three-record cluster the edge
(+, A, LFT) to (+, B, RGT) and its orientation-flipped mirror hold the
identical list [50]. -/
theorem buildMatrix_mirror_witness :
    OriOK [[threeCluster]] ∧ oriOKCE ⟨"+", "A", "LFT"⟩ ∧ oriOKCE ⟨"+", "B", "RGT"⟩ ∧
    lookup2 (buildMatrix [[threeCluster]] 2) ⟨"+", "A", "LFT"⟩ ⟨"+", "B", "RGT"⟩ =
      lookup2 (buildMatrix [[threeCluster]] 2)
        (oppositeOrientation ⟨"+", "B", "RGT"⟩)
        (oppositeOrientation ⟨"+", "A", "LFT"⟩) :=
  ⟨by decide, by decide, by decide,
    buildMatrix_mirror [[threeCluster]] 2 ⟨"+", "A", "LFT"⟩ ⟨"+", "B", "RGT"⟩
      (by decide) (by decide) (by decide)⟩

theorem alookup_rowSet (k b : ContigEntry) (v : Int)
    (row : List (ContigEntry × Int)) :
    alookup b (rowSet k v row) = if b = k then some v else alookup b row := by
  induction row with
  | nil =>
    by_cases h : b = k
    · subst h; simp [rowSet, alookup]
    · have h2 : ¬ (k = b) := fun hh => h hh.symm
      simp [rowSet, alookup, h, h2]
  | cons p rest ih =>
    by_cases hpk : p.1 = k
    · by_cases hbk : b = k
      · subst hbk
        simp [rowSet, alookup, hpk]
      · have hpb : ¬ (p.1 = b) := fun hh => hbk (hh.symm.trans hpk)
        have hkb : ¬ (k = b) := fun hh => hbk hh.symm
        simp [rowSet, alookup, hpk, hpb, hbk, hkb]
    · by_cases hp : p.1 = b
      · have hbk : ¬ (b = k) := fun hh => hpk (hp.trans hh)
        simp [rowSet, alookup, hpk, hp, hbk]
      · simp [rowSet, alookup, hpk, hp, ih]

theorem lookup2_matSet (k1 k2 : ContigEntry) (v : Int) (MC : ConsMatrix)
    (a b : ContigEntry) :
    lookup2 (matSet k1 k2 v MC) a b =
      if a = k1 ∧ b = k2 then some v else lookup2 MC a b := by
  induction MC with
  | nil =>
    by_cases ha : a = k1
    · subst ha
      by_cases hb : b = k2
      · subst hb; simp [matSet, lookup2, alookup]
      · have h2 : ¬ (k2 = b) := fun hh => hb hh.symm
        simp [matSet, lookup2, alookup, hb, h2]
    · have h1 : ¬ (k1 = a) := fun hh => ha hh.symm
      simp [matSet, lookup2, alookup, h1, ha]
  | cons p rest ih =>
    by_cases hpk : p.1 = k1
    · by_cases ha : a = k1
      · subst ha
        simp [matSet, lookup2, alookup, hpk, alookup_rowSet]
      · have hpa : ¬ (p.1 = a) := fun hh => ha (hh.symm.trans hpk)
        have hka : ¬ (k1 = a) := fun hh => ha hh.symm
        simp [matSet, lookup2, alookup, hpk, hpa, ha, hka]
    · by_cases hpa : p.1 = a
      · have ha : ¬ (a = k1) := fun hh => hpk (hpa.trans hh)
        simp [matSet, lookup2, alookup, hpk, hpa, ha]
      · have ih2 := ih
        simp only [lookup2] at ih2
        simp [matSet, lookup2, alookup, hpk, hpa, ih2]

theorem alookup_eq_of_mem_nodup {α β : Type} [DecidableEq α]
    (l : List (α × β)) (hnd : (l.map Prod.fst).Nodup) (p : α × β)
    (hp : p ∈ l) : alookup p.1 l = some p.2 := by
  induction l with
  | nil => cases hp
  | cons q rest ih =>
    rcases List.mem_cons.mp hp with h | h
    · subst h
      simp [alookup]
    · have hnd2 : q.1 ∉ rest.map Prod.fst ∧ (rest.map Prod.fst).Nodup := by
        rw [List.map_cons, List.nodup_cons] at hnd
        exact hnd
      have hne : ¬ (q.1 = p.1) := by
        intro hh
        apply hnd2.1
        rw [hh]
        exact List.mem_map.mpr ⟨p, h, rfl⟩
      simp [alookup, hne, ih hnd2.2 h]

theorem makeConsensusMatrix_none (M : DistMatrix) (t : Nat)
    (f : List Int → Int) (e1 e2 : ContigEntry)
    (h : ∀ p ∈ M, ∀ q ∈ p.2, p.1 = e1 → q.1 = e2 → q.2.length < t) :
    lookup2 (makeConsensusMatrix M t f) e1 e2 = none := by
  unfold makeConsensusMatrix
  have hbase : lookup2 ([] : ConsMatrix) e1 e2 = none := rfl
  refine foldl_preserve_mem (P := fun MC => lookup2 MC e1 e2 = none) _ M [] ?_ hbase
  intro p hp MC hMC
  refine foldl_preserve_mem (P := fun MC => lookup2 MC e1 e2 = none) _ p.2 MC ?_ hMC
  intro q hq MC2 hMC2
  by_cases hlen : q.2.length < t
  · rw [if_pos hlen]; exact hMC2
  · rw [if_neg hlen, lookup2_matSet]
    have hcond : ¬ (e1 = p.1 ∧ e2 = q.1) := by
      rintro ⟨i1, i2⟩
      exact hlen (h p hp q hq i1.symm i2.symm)
    rw [if_neg hcond]
    exact hMC2

/-- C9: an edge whose observation list in the multi-valued matrix is
shorter than the threshold never appears in the consensus matrix,
whatever the statistic computes. -/
theorem consensus_threshold_drop (M : DistMatrix) (t : Nat)
    (f : List Int → Int) (e1 e2 : ContigEntry) (l : List Int)
    (hwf : MatrixWF M) (hlook : lookup2 M e1 e2 = some l)
    (hlen : l.length < t) :
    lookup2 (makeConsensusMatrix M t f) e1 e2 = none := by
  have hex : ∃ row, alookup e1 M = some row ∧ alookup e2 row = some l := by
    unfold lookup2 at hlook
    revert hlook
    cases hrow : alookup e1 M with
    | none => intro hl; exact Option.noConfusion hl
    | some row => intro hl; exact ⟨row, rfl, hl⟩
  obtain ⟨row, hrow, hlook2⟩ := hex
  · apply makeConsensusMatrix_none
    intro p hp q hq hpe1 hqe2
    have h1 := alookup_eq_of_mem_nodup M hwf.1 p hp
    rw [hpe1, hrow] at h1
    have hprow : row = p.2 := by injection h1
    have h2 := alookup_eq_of_mem_nodup p.2 (hwf.2 p hp) q hq
    rw [hqe2] at h2
    rw [← hprow] at h2
    rw [hlook2] at h2
    have hl : l = q.2 := by injection h2
    rw [← hl]
    exact hlen

/-- C9 witness: a single edge observed once with threshold 2 is dropped
from the consensus matrix. -/
theorem consensus_threshold_drop_witness :
    MatrixWF [(⟨"+", "A", "LFT"⟩, [(⟨"+", "B", "RGT"⟩, [5])])] ∧
    lookup2 [(⟨"+", "A", "LFT"⟩, [(⟨"+", "B", "RGT"⟩, [5])])]
      ⟨"+", "A", "LFT"⟩ ⟨"+", "B", "RGT"⟩ = some [5] ∧
    ([5] : List Int).length < 2 ∧
    lookup2 (makeConsensusMatrix
        [(⟨"+", "A", "LFT"⟩, [(⟨"+", "B", "RGT"⟩, [5])])] 2 (fun _ => 0))
      ⟨"+", "A", "LFT"⟩ ⟨"+", "B", "RGT"⟩ = none :=
  ⟨by decide, by decide, by decide,
    consensus_threshold_drop _ 2 (fun _ => 0) _ _ [5]
      (by decide) (by decide) (by decide)⟩

theorem scaffoldBody_spec (M : ConsMatrix) :
    ∀ prs : List (ContigEntry × ContigEntry),
      (∀ pr ∈ prs, pr.1.CONTIGID ≠ pr.2.CONTIGID) →
      (∀ pr ∈ prs, (lookup2 M pr.1 pr.2).isSome = true) →
      scaffoldBody M prs = some (prs.map (fun pr =>
        ⟨(lookup2 M pr.1 pr.2).getD 0, pr.1.ORIENTATION, pr.1.CONTIGID⟩))
  | [], _, _ => rfl
  | pr :: rest, hdiff, hin => by
    have hne := hdiff pr (List.mem_cons_self pr rest)
    have hsome := hin pr (List.mem_cons_self pr rest)
    obtain ⟨g, hg⟩ := Option.isSome_iff_exists.mp hsome
    have ihres := scaffoldBody_spec M rest
      (fun x hx => hdiff x (List.mem_cons_of_mem pr hx))
      (fun x hx => hin x (List.mem_cons_of_mem pr hx))
    simp [scaffoldBody, hne, hg, ihres]

theorem pairwiseList_length {α : Type} : ∀ l : List α,
    (pairwiseList l).length = l.length - 1
  | [] => rfl
  | [_] => rfl
  | a :: b :: rest => by
    have ih := pairwiseList_length (b :: rest)
    simp only [pairwiseList, List.length_cons] at ih ⊢
    omega

/-- C8: for a nonempty path in which no adjacent pair shares a contig id
and every adjacent pair has a consensus entry, the assembler emits
exactly one line per node: for each adjacent pair a line carrying the
consensus distance, the first endpoint's orientation and contig id, then
one final zero-gap line for the last node. -/
theorem makeScaffolds_line_count (M : ConsMatrix) (path : List ContigEntry)
    (hne : path ≠ [])
    (hdiff : ∀ pr ∈ pairwiseList path, pr.1.CONTIGID ≠ pr.2.CONTIGID)
    (hin : ∀ pr ∈ pairwiseList path, (lookup2 M pr.1 pr.2).isSome = true) :
    ∃ ceLast lines, path.getLast? = some ceLast ∧
      scaffoldForPath M path = some lines ∧
      lines = (pairwiseList path).map (fun pr =>
        ⟨(lookup2 M pr.1 pr.2).getD 0, pr.1.ORIENTATION, pr.1.CONTIGID⟩) ++
        [⟨0, ceLast.ORIENTATION, ceLast.CONTIGID⟩] ∧
      lines.length = path.length ∧
      makeScaffolds M [path] = some [lines] := by
  cases hlast : path.getLast? with
  | none =>
    rw [List.getLast?_eq_none_iff] at hlast
    exact absurd hlast hne
  | some ceLast =>
    have hbody := scaffoldBody_spec M (pairwiseList path) hdiff hin
    have hsp : scaffoldForPath M path = some ((pairwiseList path).map (fun pr =>
        ⟨(lookup2 M pr.1 pr.2).getD 0, pr.1.ORIENTATION, pr.1.CONTIGID⟩) ++
        [⟨0, ceLast.ORIENTATION, ceLast.CONTIGID⟩]) := by
      unfold scaffoldForPath
      rw [hlast, hbody]
    refine ⟨ceLast, _, rfl, hsp, rfl, ?_, ?_⟩
    · rw [List.length_append, List.length_map, pairwiseList_length]
      have hpos : 0 < path.length := List.length_pos.mpr hne
      simp
      omega
    · unfold makeScaffolds
      simp [List.mapM, List.mapM.loop, hsp]

/-- C8 witness: the two-node path A then B over a consensus matrix with
the single edge (A, B) distance 7 yields exactly the two lines
(7, +, A) and (0, +, B). -/
theorem makeScaffolds_line_count_witness :
    ([⟨"+", "A", "ALL"⟩, ⟨"+", "B", "ALL"⟩] : List ContigEntry) ≠ [] ∧
    (∀ pr ∈ pairwiseList ([⟨"+", "A", "ALL"⟩, ⟨"+", "B", "ALL"⟩] : List ContigEntry),
      pr.1.CONTIGID ≠ pr.2.CONTIGID) ∧
    (∀ pr ∈ pairwiseList ([⟨"+", "A", "ALL"⟩, ⟨"+", "B", "ALL"⟩] : List ContigEntry),
      (lookup2 [(⟨"+", "A", "ALL"⟩, [(⟨"+", "B", "ALL"⟩, 7)])] pr.1 pr.2).isSome = true) ∧
    (∃ ceLast lines,
      ([⟨"+", "A", "ALL"⟩, ⟨"+", "B", "ALL"⟩] : List ContigEntry).getLast? = some ceLast ∧
      scaffoldForPath [(⟨"+", "A", "ALL"⟩, [(⟨"+", "B", "ALL"⟩, 7)])]
        [⟨"+", "A", "ALL"⟩, ⟨"+", "B", "ALL"⟩] = some lines ∧
      lines = (pairwiseList ([⟨"+", "A", "ALL"⟩, ⟨"+", "B", "ALL"⟩] : List ContigEntry)).map
        (fun pr => ⟨(lookup2 [(⟨"+", "A", "ALL"⟩, [(⟨"+", "B", "ALL"⟩, 7)])] pr.1 pr.2).getD 0,
          pr.1.ORIENTATION, pr.1.CONTIGID⟩) ++
        [⟨0, ceLast.ORIENTATION, ceLast.CONTIGID⟩] ∧
      lines.length = ([⟨"+", "A", "ALL"⟩, ⟨"+", "B", "ALL"⟩] : List ContigEntry).length ∧
      makeScaffolds [(⟨"+", "A", "ALL"⟩, [(⟨"+", "B", "ALL"⟩, 7)])]
        [[⟨"+", "A", "ALL"⟩, ⟨"+", "B", "ALL"⟩]] = some [lines]) :=
  ⟨by decide, by decide, by decide,
    makeScaffolds_line_count [(⟨"+", "A", "ALL"⟩, [(⟨"+", "B", "ALL"⟩, 7)])]
      [⟨"+", "A", "ALL"⟩, ⟨"+", "B", "ALL"⟩] (by decide) (by decide) (by decide)⟩

theorem trans_invol_table : ∀ c ∈ SequenceMerger.alphabet,
    (SequenceMerger.trans c).bind SequenceMerger.trans = some c ∧
    (SequenceMerger.trans c).isSome = true := by decide

theorem mapM_trans_invol : ∀ l : List Char,
    (∀ c ∈ l, c ∈ SequenceMerger.alphabet) →
    ∃ t, List.mapM' SequenceMerger.trans l = some t ∧ t.length = l.length ∧
      List.mapM' SequenceMerger.trans t = some l
  | [], _ => ⟨[], by simp, rfl, by simp⟩
  | c :: l, h => by
    have hc := trans_invol_table c (h c (List.mem_cons_self c l))
    obtain ⟨c2, hc2⟩ := Option.isSome_iff_exists.mp hc.2
    have hcc : SequenceMerger.trans c2 = some c := by
      have hb := hc.1
      rw [hc2] at hb
      simpa using hb
    obtain ⟨t, ht1, ht2, ht3⟩ := mapM_trans_invol l
      (fun x hx => h x (List.mem_cons_of_mem c hx))
    exact ⟨c2 :: t, by simp [List.mapM'_cons, hc2, ht1],
      by simp [ht2], by simp [List.mapM'_cons, hcc, ht3]⟩

theorem mapM_trans_append (l1 l2 : List Char) :
    List.mapM' SequenceMerger.trans (l1 ++ l2) =
      (List.mapM' SequenceMerger.trans l1).bind (fun t1 =>
        (List.mapM' SequenceMerger.trans l2).map (fun t2 => t1 ++ t2)) := by
  induction l1 with
  | nil =>
    cases h : List.mapM' SequenceMerger.trans l2 <;> simp [h]
  | cons c l ih =>
    cases htrans : SequenceMerger.trans c
    · simp [List.mapM'_cons, htrans, ih]
    · simp only [List.cons_append, List.mapM'_cons, htrans, ih]
      cases List.mapM' SequenceMerger.trans l <;>
        cases List.mapM' SequenceMerger.trans l2 <;>
        simp

theorem mapM_trans_reverse : ∀ l : List Char,
    List.mapM' SequenceMerger.trans l.reverse =
      (List.mapM' SequenceMerger.trans l).map List.reverse
  | [] => by simp
  | c :: l => by
    have ih := mapM_trans_reverse l
    rw [List.reverse_cons, mapM_trans_append, ih]
    cases h1 : List.mapM' SequenceMerger.trans l <;>
      cases h2 : SequenceMerger.trans c <;>
      simp [List.mapM'_cons, h1, h2]

/-- C10: reverseComplement is a length-preserving involution on
sequences over the 16-symbol complement alphabet. -/
theorem reverseComplement_involution (s : String)
    (h : ∀ c ∈ s.toList, c ∈ SequenceMerger.alphabet) :
    ∃ t, SequenceMerger.reverseComplement s = some t ∧
      t.length = s.length ∧
      SequenceMerger.reverseComplement t = some s := by
  obtain ⟨t0, ht1, ht2, ht3⟩ := mapM_trans_invol s.toList.reverse
    (fun c hc => h c (List.mem_reverse.mp hc))
  have hrc : SequenceMerger.reverseComplementL s.toList = some t0 := by
    unfold SequenceMerger.reverseComplementL
    rw [← List.mapM'_eq_mapM]
    exact ht1
  refine ⟨t0.asString, ?_, ?_, ?_⟩
  · unfold SequenceMerger.reverseComplement
    rw [hrc]
    rfl
  · rw [List.length_asString, ht2, List.length_reverse]
    rfl
  · unfold SequenceMerger.reverseComplement
    have htl : t0.asString.toList = t0 := List.toList_asString t0
    rw [htl]
    unfold SequenceMerger.reverseComplementL
    rw [← List.mapM'_eq_mapM, mapM_trans_reverse t0, ht3]
    simp only [Option.map_map, Option.map_some']
    rw [List.reverse_reverse]
    exact congrArg some (String.asString_toList s)

/-- C10 witness: the full-alphabet string round-trips through
reverseComplement with preserved length. -/
theorem reverseComplement_involution_witness :
    (∀ c ∈ ("ACGTMRWSYKVHDBXN" : String).toList, c ∈ SequenceMerger.alphabet) ∧
    (∃ t, SequenceMerger.reverseComplement "ACGTMRWSYKVHDBXN" = some t ∧
      t.length = ("ACGTMRWSYKVHDBXN" : String).length ∧
      SequenceMerger.reverseComplement t = some "ACGTMRWSYKVHDBXN") :=
  ⟨by decide, reverseComplement_involution "ACGTMRWSYKVHDBXN" (by decide)⟩

theorem oppCE_id (ce : ContigEntry) :
    (oppositeContigEntry ce).CONTIGID = ce.CONTIGID := by
  unfold oppositeContigEntry
  split_ifs <;> rfl

theorem bestOfRow_not_dropped (dl : List String)
    (row : List (ContigEntry × Int)) (c : ContigEntry)
    (h : bestOfRow dl row = some c) : c.CONTIGID ∉ dl := by
  unfold bestOfRow at h
  revert h
  cases hsort : List.mergeSort (row.filter (fun q => decide (q.1.CONTIGID ∉ dl)))
      (fun q1 q2 => decide (q1.2 ≤ q2.2)) with
  | nil => intro h; exact Option.noConfusion h
  | cons q rest =>
    intro h
    have hc : q.1 = c := by injection h
    have hq : q ∈ List.mergeSort (row.filter (fun q => decide (q.1.CONTIGID ∉ dl)))
        (fun q1 q2 => decide (q1.2 ≤ q2.2)) := by
      rw [hsort]; exact List.mem_cons_self q rest
    have hq2 : q ∈ row.filter (fun q => decide (q.1.CONTIGID ∉ dl)) :=
      (List.mergeSort_perm _ _).mem_iff.mp hq
    have hq3 := List.mem_filter.mp hq2
    rw [← hc]
    exact of_decide_eq_true hq3.2

theorem bestNextMatch_not_dropped (M : ConsMatrix) (dl : List String)
    (n c : ContigEntry) (h : bestNextMatch M dl n = some c) :
    c.CONTIGID ∉ dl := by
  unfold bestNextMatch at h
  revert h
  cases halookup : alookup n M with
  | none => intro h; exact Option.noConfusion h
  | some row => intro h; exact bestOfRow_not_dropped dl row c h

theorem expandLoop_facts (M : ConsMatrix) : ∀ (fuel : Nat)
    (last : ContigEntry) (dl : List String),
    (∀ e ∈ (expandLoop M fuel last dl).1,
      e.CONTIGID = last.CONTIGID ∨ e.CONTIGID ∉ dl) ∧
    dl ⊆ (expandLoop M fuel last dl).2 := by
  intro fuel
  induction fuel with
  | zero =>
    intro last dl
    exact ⟨fun e he => absurd he (List.not_mem_nil e), fun x hx => hx⟩
  | succ fuel ih =>
    intro last dl
    simp only [expandLoop]
    by_cases hnone : (alookup (oppositeContigEntry last) M).isNone = true
    · simp only [if_pos hnone]
      exact ⟨fun e he => absurd he (List.not_mem_nil e), fun x hx => hx⟩
    · simp only [if_neg hnone]
      cases hbnm : bestNextMatch M ((oppositeContigEntry last).CONTIGID :: dl)
          (oppositeContigEntry last) with
      | none =>
        refine ⟨?_, fun x hx => List.mem_cons_of_mem _ hx⟩
        intro e he
        rcases List.mem_cons.mp he with rfl | h2
        · exact Or.inl (oppCE_id last)
        · exact absurd h2 (List.not_mem_nil e)
      | some n =>
        obtain ⟨ih1, ih2⟩ := ih n ((oppositeContigEntry last).CONTIGID :: dl)
        have hn : n.CONTIGID ∉ (oppositeContigEntry last).CONTIGID :: dl :=
          bestNextMatch_not_dropped M _ _ n hbnm
        have hndl : n.CONTIGID ∉ dl := fun hx => hn (List.mem_cons_of_mem _ hx)
        constructor
        · intro e he
          rcases List.mem_cons.mp he with rfl | h2
          · exact Or.inl (oppCE_id last)
          · rcases List.mem_cons.mp h2 with rfl | h3
            · exact Or.inr hndl
            · rcases ih1 e h3 with heq | hnot
              · rw [heq]; exact Or.inr hndl
              · exact Or.inr (fun hx => hnot (List.mem_cons_of_mem _ hx))
        · exact fun x hx => ih2 (List.mem_cons_of_mem _ hx)

theorem foldlCons_sub (l : List ContigEntry) : ∀ s : List String,
    s ⊆ l.foldl (fun acc e => e.CONTIGID :: acc) s := by
  induction l with
  | nil => intro s x hx; exact hx
  | cons e l ih =>
    intro s x hx
    simp only [List.foldl_cons]
    exact ih (e.CONTIGID :: s) (List.mem_cons_of_mem _ hx)

theorem foldlCons_mem (l : List ContigEntry) : ∀ (s : List String)
    (e : ContigEntry), e ∈ l →
    e.CONTIGID ∈ l.foldl (fun acc x => x.CONTIGID :: acc) s := by
  induction l with
  | nil => intro s e he; cases he
  | cons x l ih =>
    intro s e he
    simp only [List.foldl_cons]
    rcases List.mem_cons.mp he with rfl | h2
    · exact foldlCons_sub l _ (List.mem_cons_self _ _)
    · exact ih _ e h2

theorem buildPathsLoop_partition (M : ConsMatrix) : ∀ (fuel : Nat)
    (unseen : List ContigEntry) (seen : List String),
    (buildPathsLoop M fuel unseen seen).Pairwise
      (fun p q => ∀ e1 ∈ p, ∀ e2 ∈ q, e1.CONTIGID ≠ e2.CONTIGID) ∧
    ∀ p ∈ buildPathsLoop M fuel unseen seen, ∀ e ∈ p, e.CONTIGID ∉ seen := by
  intro fuel
  induction fuel with
  | zero =>
    intro unseen seen
    simp only [buildPathsLoop]
    exact ⟨List.Pairwise.nil, fun p hp => absurd hp (List.not_mem_nil p)⟩
  | succ fuel ih =>
    intro unseen seen
    cases unseen with
    | nil =>
      simp only [buildPathsLoop]
      exact ⟨List.Pairwise.nil, fun p hp => absurd hp (List.not_mem_nil p)⟩
    | cons startNode rest =>
      simp only [buildPathsLoop, expandPath]
      by_cases hseen : startNode.CONTIGID ∈ seen
      · simp only [if_pos hseen]
        exact ih rest seen
      · simp only [if_neg hseen]
        set r := expandLoop M (expandFuel M) startNode (startNode.CONTIGID :: seen) with hr
        obtain ⟨hL1, hL2⟩ := expandLoop_facts M (expandFuel M) startNode
          (startNode.CONTIGID :: seen)
        rw [← hr] at hL1 hL2
        have hFresh : ∀ e ∈ startNode :: r.1, e.CONTIGID ∉ seen := by
          intro e he
          rcases List.mem_cons.mp he with rfl | h2
          · exact hseen
          · rcases hL1 e h2 with heq | hnot
            · rw [heq]; exact hseen
            · exact fun hx => hnot (List.mem_cons_of_mem _ hx)
        have hsub : seen ⊆ r.2 := fun x hx => hL2 (List.mem_cons_of_mem _ hx)
        by_cases hlen : (startNode :: r.1).length > 1
        · simp only [if_pos hlen]
          obtain ⟨ihPW, ihFresh⟩ := ih
            (rest.filter (fun e => decide (e ∉ startNode :: r.1)))
            ((startNode :: r.1).foldl (fun s e => e.CONTIGID :: s) r.2)
          constructor
          · refine List.Pairwise.cons ?_ ihPW
            intro q hq e1 he1 e2 he2
            have h1 : e1.CONTIGID ∈
                (startNode :: r.1).foldl (fun s e => e.CONTIGID :: s) r.2 :=
              foldlCons_mem (startNode :: r.1) r.2 e1 he1
            have h2 := ihFresh q hq e2 he2
            intro heq
            rw [heq] at h1
            exact h2 h1
          · intro p hp e he
            rcases List.mem_cons.mp hp with rfl | hp2
            · exact hFresh e he
            · intro hmem
              apply ihFresh p hp2 e he
              exact foldlCons_sub (startNode :: r.1) r.2 (hsub hmem)
        · simp only [if_neg hlen]
          obtain ⟨ihPW, ihFresh⟩ := ih rest r.2
          refine ⟨ihPW, ?_⟩
          intro p hp e he hmem
          exact ihFresh p hp e he (hsub hmem)

/-- C6: across all paths returned by buildPaths, the bare contig ids
are pairwise disjoint: no contig id occurs in two distinct emitted
paths. -/
theorem buildPaths_partition (M : ConsMatrix) :
    (buildPaths M).Pairwise
      (fun p q => ∀ e1 ∈ p, ∀ e2 ∈ q, e1.CONTIGID ≠ e2.CONTIGID) := by
  unfold buildPaths
  exact (buildPathsLoop_partition M _ _ _).1
